import Mathlib

/-!
Verification development for the VideoCallApp repository.

The signaling server (`src/server/index.js`) keeps three JavaScript `Map`s
(`rooms`, `users`, `connectionMetrics`) keyed by socket id, together with the
set of connected sockets (`io.sockets.sockets`).  The client peer-connection
hook (`src/client/src/components/VideoCall.js`, `usePeerConnection`) keeps
per-peer keyed stores (peer connections, ICE-candidate queues, cached remote
streams, timers, React state maps).

JavaScript `Map`s / plain objects are embedded as insertion-ordered
association lists with unique keys: `set` replaces the first matching entry in
place or appends a fresh one at the end (the `Map.set` behaviour), `delete`
removes the entries with the given key, `get` returns the first match.
-/

namespace VideoCallApp

/-- `Map.prototype.get`: first value stored under key `k`. -/
def alLookup {α : Type} (l : List (String × α)) (k : String) : Option α :=
  match l with
  | [] => none
  | (k', v) :: rest => if k' = k then some v else alLookup rest k

/-- `Map.prototype.set`: replace the value stored under `k` in place, or
append a new entry at the end (JavaScript `Map`s preserve insertion order). -/
def alSet {α : Type} (l : List (String × α)) (k : String) (v : α) :
    List (String × α) :=
  match l with
  | [] => [(k, v)]
  | (k', v') :: rest =>
    if k' = k then (k, v) :: rest else (k', v') :: alSet rest k v

/-- `Map.prototype.delete`: remove the entries stored under `k` (keys of a
JavaScript `Map` are unique, so at most one entry is ever removed). -/
def alErase {α : Type} (l : List (String × α)) (k : String) :
    List (String × α) :=
  match l with
  | [] => []
  | (k', v) :: rest => if k' = k then alErase rest k else (k', v) :: alErase rest k

/-!
## Server model (`src/server/index.js`)

The global stores are `rooms`, `users`, `connectionMetrics` (all `Map`s keyed
by socket id or room id) and the set of connected sockets
(`io.sockets.sockets`).  Timestamps, client IPs, console logging and the
WebRTC configuration blob attached to some events are omitted: no claim
mentions them.
-/

/-- The per-socket user record created on `connection` and mutated by the
handlers (`users` map values). -/
structure SUser where
  id : String
  name : Option String
  roomId : Option String
  isAudioEnabled : Bool
  isVideoEnabled : Bool
  isScreenSharing : Bool
  deriving DecidableEq

/-- Per-socket connection metrics (`connectionMetrics` map values); only the
counters touched by the relay handlers are kept. -/
structure Metrics where
  pendingOffers : Nat
  successfulConnections : Nat
  iceFailures : Nat
  deriving DecidableEq

/-- A room record (`rooms` map values): its member map and type tag. -/
structure Room where
  users : List (String × SUser)
  roomType : String
  deriving DecidableEq

/-- The whole server-side mutable state. -/
structure ServerState where
  rooms : List (String × Room)
  users : List (String × SUser)
  connectionMetrics : List (String × Metrics)
  sockets : List String
  deriving DecidableEq

/-- Messages emitted by the server.  `userJoined`/`userLeft`/`roomUpdated`
style broadcasts carry their room; events addressed to one socket carry the
recipient.  Offer/answer/candidate payloads are opaque (`Nat`). -/
inductive SEvent where
  | errorEvt (toSid : String)
  | callFailed (toSid : String)
  | joinedRoom (toSid roomId : String) (users : List String)
  | userJoined (roomId userId : String)
  | userLeft (roomId userId : String) (userCount : Nat)
  | roomDeleted (roomId : String)
  | roomUpdated (roomId : String) (userCount : Nat)
  | newRoomCreated (roomId : String)
  | offerFwd (toSid fromUserId : String) (payload : Nat)
  | answerFwd (toSid fromUserId : String) (payload : Nat)
  | iceFwd (toSid fromUserId : String) (payload : Nat)
  deriving DecidableEq

/-- Inbound messages handled by the server (the socket handlers the claims
are about, plus connection setup/teardown). -/
inductive SMsg where
  | connect (sid : String)
  | joinRoom (sid roomId userName roomType : String)
  | offer (sid targetUserId : String) (payload : Nat)
  | answer (sid targetUserId : String) (payload : Nat)
  | iceCandidate (sid targetUserId : String) (payload : Nat)
  | leaveRoom (sid : String)
  | disconnect (sid : String)
  deriving DecidableEq

/-- `handleUserLeave(socket)`: remove the user from its room (deleting the
room when it empties), then delete the global user and metrics entries. -/
def handleUserLeave (st : ServerState) (sid : String) : ServerState × List SEvent :=
  let cleanup := fun (s : ServerState) (evs : List SEvent) =>
    ({ s with
        users := alErase s.users sid,
        connectionMetrics := alErase s.connectionMetrics sid }, evs)
  match alLookup st.users sid with
  | none => cleanup st []
  | some user =>
    match user.roomId with
    | none => cleanup st []
    | some roomId =>
      -- `if (user && user.roomId)`: the empty string is falsy in JavaScript
      if roomId = "" then cleanup st [] else
      match alLookup st.rooms roomId with
      | none => cleanup st []
      | some room =>
        let users' := alErase room.users sid
        let evLeft := SEvent.userLeft roomId sid users'.length
        if users'.length = 0 then
          cleanup { st with rooms := alErase st.rooms roomId }
            [evLeft, SEvent.roomDeleted roomId]
        else
          cleanup { st with rooms := alSet st.rooms roomId { room with users := users' } }
            [evLeft, SEvent.roomUpdated roomId users'.length]

/-- `socket.on('join-room')`. -/
def onJoinRoom (st : ServerState) (sid roomId userName roomType : String) :
    ServerState × List SEvent :=
  match alLookup st.users sid with
  | none => (st, [SEvent.errorEvt sid])
  | some user =>
    -- `if (user.roomId && user.roomId !== roomId)`: room switch leaves first
    let leave : Bool :=
      match user.roomId with
      | some old => decide (old ≠ "" ∧ old ≠ roomId)
      | none => false
    let s1evs := if leave then handleUserLeave st sid else (st, [])
    let s1 := s1evs.1
    let user' := { user with
        roomId := some roomId,
        name := some userName,
        isAudioEnabled := true,
        isVideoEnabled := roomType = "video" }
    let s2 := { s1 with users := alSet s1.users sid user' }
    let s3evs :=
      if (alLookup s2.rooms roomId).isNone then
        ({ s2 with rooms := alSet s2.rooms roomId ⟨[], roomType⟩ },
          [SEvent.newRoomCreated roomId])
      else (s2, [])
    let s3 := s3evs.1
    let room := (alLookup s3.rooms roomId).getD ⟨[], roomType⟩
    let existingUsersInRoom :=
      (room.users.filter (fun kv => kv.2.id ≠ sid)).map (fun kv => kv.2.id)
    let room' := { room with users := alSet room.users sid user' }
    let s4 := { s3 with rooms := alSet s3.rooms roomId room' }
    (s4, s1evs.2 ++ s3evs.2 ++
      [SEvent.joinedRoom sid roomId existingUsersInRoom,
       SEvent.userJoined roomId sid,
       SEvent.roomUpdated roomId room'.users.length])

/-- The guard `targetSocket && targetUser && fromUser.roomId === targetUser.roomId`
shared by the three relay handlers. -/
def relayOk (st : ServerState) (fromUser : SUser) (targetUserId : String) : Bool :=
  st.sockets.contains targetUserId &&
    (match alLookup st.users targetUserId with
     | some targetUser => decide (fromUser.roomId = targetUser.roomId)
     | none => false)

/-- `socket.on('offer')`. -/
def onOffer (st : ServerState) (sid targetUserId : String) (payload : Nat) :
    ServerState × List SEvent :=
  match alLookup st.users sid with
  | none => (st, [])
  | some fromUser =>
    if relayOk st fromUser targetUserId then
      let metrics' :=
        match alLookup st.connectionMetrics sid with
        | some m =>
          alSet st.connectionMetrics sid { m with pendingOffers := m.pendingOffers + 1 }
        | none => st.connectionMetrics
      ({ st with connectionMetrics := metrics' },
        [SEvent.offerFwd targetUserId sid payload])
    else (st, [SEvent.callFailed sid])

/-- `socket.on('answer')`. -/
def onAnswer (st : ServerState) (sid targetUserId : String) (payload : Nat) :
    ServerState × List SEvent :=
  match alLookup st.users sid with
  | none => (st, [])
  | some fromUser =>
    if relayOk st fromUser targetUserId then
      let metrics' :=
        match alLookup st.connectionMetrics targetUserId with
        | some m =>
          if m.pendingOffers > 0 then
            alSet st.connectionMetrics targetUserId
              { m with
                  pendingOffers := m.pendingOffers - 1,
                  successfulConnections := m.successfulConnections + 1 }
          else st.connectionMetrics
        | none => st.connectionMetrics
      ({ st with connectionMetrics := metrics' },
        [SEvent.answerFwd targetUserId sid payload])
    else (st, [SEvent.callFailed sid])

/-- `socket.on('ice-candidate')`: note that the failure branch only logs a
warning — it emits nothing. -/
def onIceCandidate (st : ServerState) (sid targetUserId : String) (payload : Nat) :
    ServerState × List SEvent :=
  match alLookup st.users sid with
  | none => (st, [])
  | some fromUser =>
    if relayOk st fromUser targetUserId then
      (st, [SEvent.iceFwd targetUserId sid payload])
    else (st, [])

/-- `io.on('connection')` body: create the user record and metrics entry. -/
def onConnect (st : ServerState) (sid : String) : ServerState × List SEvent :=
  ({ st with
      users := alSet st.users sid
        { id := sid, name := none, roomId := none,
          isAudioEnabled := true, isVideoEnabled := false, isScreenSharing := false },
      connectionMetrics := alSet st.connectionMetrics sid ⟨0, 0, 0⟩,
      sockets := if st.sockets.contains sid then st.sockets else st.sockets ++ [sid] },
    [])

/-- `socket.on('disconnect')`: `handleUserLeave` plus removal from the socket
set (done by socket.io itself). -/
def onDisconnect (st : ServerState) (sid : String) : ServerState × List SEvent :=
  let r := handleUserLeave st sid
  ({ r.1 with sockets := r.1.sockets.filter (· ≠ sid) }, r.2)

/-- One inbound message handled to completion (the relay's dispatch loop). -/
def serverStep (st : ServerState) (m : SMsg) : ServerState × List SEvent :=
  match m with
  | .connect sid => onConnect st sid
  | .joinRoom sid roomId userName roomType => onJoinRoom st sid roomId userName roomType
  | .offer sid target payload => onOffer st sid target payload
  | .answer sid target payload => onAnswer st sid target payload
  | .iceCandidate sid target payload => onIceCandidate st sid target payload
  | .leaveRoom sid => handleUserLeave st sid
  | .disconnect sid => onDisconnect st sid

/-!
## Client model (`src/client/src/components/VideoCall.js`, `usePeerConnection`)

Peer connections, SDP descriptions, candidates and streams are opaque data
(`Nat` payloads).  An outbound `RTCRtpSender` is represented by the track it
currently carries (the code only ever reads `sender.track.kind` and swaps the
track).  Whether `pc.addIceCandidate` succeeds for a given candidate is
supplied by the oracle parameter `candOk`, modelling the try/catch around each
individual application.
-/

/-- A media track: `kind` (`"audio"`/`"video"`) plus identity. -/
structure Track where
  kind : String
  tid : Nat
  deriving DecidableEq

/-- An `RTCPeerConnection` as the hook observes it. `applied` records the
candidates successfully passed to `pc.addIceCandidate`, in order. -/
structure PeerConn where
  remoteDescription : Option Nat
  localDescription : Option Nat
  applied : List Nat
  senders : List Track
  deriving DecidableEq

/-- The `remotePeers` state values: `{ type, connected }`. -/
structure RemotePeerInfo where
  ptype : Option String
  connected : Bool
  deriving DecidableEq

/-- All keyed per-peer stores of `usePeerConnection`: the refs
(`peerConnectionsRef`, `iceCandidatesQueueRef`, `remoteStreamsRef`,
`connectionTimeoutsRef`) and the React state maps (`remotePeers`,
`remoteStreams`, `connectionStatus`), plus `connectionError`. -/
structure ClientState where
  peerConnections : List (String × PeerConn)
  iceCandidatesQueue : List (String × List Nat)
  remoteStreamsRef : List (String × Nat)
  connectionTimeouts : List (String × Nat)
  remotePeers : List (String × RemotePeerInfo)
  remoteStreams : List (String × Nat)
  connectionStatus : List (String × String)
  connectionError : Option String
  deriving DecidableEq

/-- `addIceCandidate(peerId, candidate)`: queue when there is no connection or
no remote description, otherwise apply directly (an individual failure is
caught and just returns `false`). -/
def addIceCandidate (candOk : Nat → Bool) (st : ClientState) (peerId : String)
    (candidate : Nat) : ClientState × Bool :=
  let newQueue := ((alLookup st.iceCandidatesQueue peerId).getD []) ++ [candidate]
  let queueIt := ({ st with iceCandidatesQueue := alSet st.iceCandidatesQueue peerId newQueue }, false)
  match alLookup st.peerConnections peerId with
  | none => queueIt
  | some pc =>
    if pc.remoteDescription.isNone then queueIt
    else if candOk candidate then
      let pcs := alSet st.peerConnections peerId { pc with applied := pc.applied ++ [candidate] }
      ({ st with peerConnections := pcs }, true)
    else (st, false)

/-- `processIceCandidateQueue(peerId)`: once the connection has a remote
description and the queue is non-empty, apply every queued candidate in order
(an individual failure is caught and does not stop the loop), then reset the
queue to `[]`. -/
def processIceCandidateQueue (candOk : Nat → Bool) (st : ClientState)
    (peerId : String) : ClientState :=
  let queue := (alLookup st.iceCandidatesQueue peerId).getD []
  match alLookup st.peerConnections peerId with
  | none => st
  | some pc =>
    if pc.remoteDescription.isSome && decide (queue.length > 0) then
      { st with
          peerConnections :=
            alSet st.peerConnections peerId
              { pc with applied := pc.applied ++ queue.filter candOk },
          iceCandidatesQueue := alSet st.iceCandidatesQueue peerId [] }
    else st

/-- The hook's `handleAnswer(peerId, answer)`: set the remote description,
then flush the queue, then mark the peer connected. -/
def hookHandleAnswer (candOk : Nat → Bool) (st : ClientState) (peerId : String)
    (answer : Nat) : ClientState × Bool :=
  match alLookup st.peerConnections peerId with
  | none => (st, false)
  | some pc =>
    let pcs := alSet st.peerConnections peerId { pc with remoteDescription := some answer }
    let st1 := { st with peerConnections := pcs }
    let st2 := processIceCandidateQueue candOk st1 peerId
    let prevInfo := alLookup st2.remotePeers peerId
    let info : RemotePeerInfo :=
      match prevInfo with
      | some i => { i with connected := true }
      | none => { ptype := none, connected := true }
    ({ st2 with remotePeers := alSet st2.remotePeers peerId info }, true)

/-- `closePeerConnection(peerId)`: no-op returning `false` when no connection
exists; otherwise cancel both timers, close the connection and delete the
peer's entry from every keyed store. -/
def closePeerConnection (st : ClientState) (peerId : String) : ClientState × Bool :=
  match alLookup st.peerConnections peerId with
  | none => (st, false)
  | some _ =>
    ({ peerConnections := alErase st.peerConnections peerId,
       iceCandidatesQueue := alErase st.iceCandidatesQueue peerId,
       remoteStreamsRef := alErase st.remoteStreamsRef peerId,
       connectionTimeouts :=
         alErase (alErase st.connectionTimeouts peerId) (peerId ++ "_ice"),
       remotePeers := alErase st.remotePeers peerId,
       remoteStreams := alErase st.remoteStreams peerId,
       connectionStatus := alErase st.connectionStatus peerId,
       connectionError := st.connectionError }, true)

/-- Replacing the track of the first same-kind sender, in place (what one
`senders.find(...)` hit followed by `sender.replaceTrack(track)` does to the
sender list). -/
def replaceTrackFirst : List Track → Track → List Track
  | [], _ => []
  | s :: rest, t => if s.kind = t.kind then t :: rest else s :: replaceTrackFirst rest t

/-- Is there an outbound sender whose current track has kind `k`? -/
def hasSenderOfKind (senders : List Track) (k : String) : Bool :=
  senders.any (fun s => s.kind = k)

/-- `senders.find(s => s.track?.kind === track.kind)` as the position of the
first matching sender in the `getSenders()` snapshot array. -/
def findSenderIdx (senders : List Track) (k : String) : Option Nat :=
  match senders with
  | [] => none
  | s :: rest => if s.kind = k then some 0 else (findSenderIdx rest k).map (· + 1)

/-- One iteration of the `updateStream` loop.  `senders` is the
`const senders = pc.getSenders()` snapshot taken **before** the loop
(`VideoCall.js:1445`): `find` searches only that snapshot, so senders created
by `pc.addTrack` inside the loop are invisible to later iterations.  A hit
mutates the matched sender object, i.e. position `i` of the live list
(`replaceTrack` always installs a track of the kind that was matched, so the
snapshot senders' kinds never change during the loop and matching on the
snapshot's original kinds coincides with matching on `s.track?.kind`); a miss
appends a fresh sender at the end of the live list. -/
def updateStreamStep (senders : List Track) (cur : List Track) (t : Track) : List Track :=
  match findSenderIdx senders t.kind with
  | some i => cur.set i t
  | none => cur ++ [t]

/-- The `for (const track of newStream.getTracks())` loop of `updateStream`:
the live sender list starts as the snapshot and is folded through the loop
body, while every `find` keeps using the pre-loop snapshot. -/
def updateStreamTracks (senders : List Track) (newStream : List Track) : List Track :=
  newStream.foldl (updateStreamStep senders) senders

/-- Proof-side decomposition of the loop: only the replacements, no appends.
Because all replacement indices lie inside the snapshot and all appends go
after it, the loop equals `setsOnly` followed by appending the fresh
tracks. -/
def setsOnly (senders : List Track) (cur : List Track) (ts : List Track) : List Track :=
  ts.foldl
    (fun c t =>
      match findSenderIdx senders t.kind with
      | some i => c.set i t
      | none => c)
    cur

/-- The tracks of `ts` whose kind has no sender in the snapshot (each of
these is `pc.addTrack`-ed, in order). -/
def freshTracks (senders : List Track) (ts : List Track) : List Track :=
  ts.filter (fun t => !(hasSenderOfKind senders t.kind))

/-- `updateStream(peerId, newStream)`. -/
def updateStream (st : ClientState) (peerId : String) (newStream : List Track) :
    ClientState × Bool :=
  match alLookup st.peerConnections peerId with
  | none => (st, false)
  | some pc =>
    let pcs := alSet st.peerConnections peerId { pc with senders := updateStreamTracks pc.senders newStream }
    ({ st with peerConnections := pcs }, true)

/-!
### The component's `offer` socket listener

Inside the socket-listeners effect the component declares
`const handleOffer = async ({ offer, fromUserId, fromUserName }) => ...`,
which shadows the hook function of the same name destructured from
`usePeerConnection()`.  The call
`await handleOffer(fromUserId, offer, localStream, handleIceCandidate)`
therefore invokes the event listener itself: first with the string
`fromUserId` as its sole destructured argument (all fields read as
`undefined`), then with `undefined`, whose parameter destructuring throws a
`TypeError` before the body's try/catch is entered.  The throw is caught one
level up, so the listener finally resolves with `undefined` and never creates
a connection or sends an answer.  `JsArg` is the runtime shape of the
argument at each of the three recursion depths.
-/

/-- Completion of one listener invocation: the promise resolves with the
function's return value, or rejects. -/
inductive JsResult where
  | value (answer : Option Nat)
  | thrown
  deriving DecidableEq

/-- Message sends performed by the listener (`emit('answer', ...)`). -/
inductive ClientEmit where
  | answerEmit (targetUserId : String) (answer : Nat)
  deriving DecidableEq

/-- Depth 2 of the self-call chain: the listener invoked with `undefined`
(the `fromUserId` read off a string).  Destructuring
`{ offer, fromUserId, fromUserName }` from `undefined` throws before the
body's try/catch is entered. -/
def offerEvtHandlerUndef (st : ClientState) : ClientState × List ClientEmit × JsResult :=
  (st, [], .thrown)

/-- Depth 1 of the self-call chain: the listener invoked with the string
`fromUserId` as its sole argument.  Every destructured field is `undefined`;
property access with an `undefined` key reads the property named
`"undefined"`.  The rejection of the depth-2 call is caught by this level's
try/catch, which logs and falls through, resolving with `undefined`. -/
def offerEvtHandlerStr (st : ClientState) : ClientState × List ClientEmit × JsResult :=
  let st1 :=
    if (alLookup st.peerConnections "undefined").isSome then
      (closePeerConnection st "undefined").1
    else st
  let r := offerEvtHandlerUndef st1
  let ems :=
    match r.2.2 with
    | .value (some a) => [ClientEmit.answerEmit "undefined" a]
    | _ => []
  (r.1, r.2.1 ++ ems, .value none)

/-- The component's `offer` socket listener, invoked with the event payload
`{ offer, fromUserId, fromUserName }`.  The inner
`await handleOffer(fromUserId, offer, localStream, handleIceCandidate)`
resolves to the shadowing listener itself, i.e. `offerEvtHandlerStr`; the
`answer` it yields is `undefined`, so `emit('answer', ...)` never runs. -/
def offerEvtHandler (fromUserId : String) (st : ClientState) :
    ClientState × List ClientEmit × JsResult :=
  let st1 :=
    if (alLookup st.peerConnections fromUserId).isSome then
      (closePeerConnection st fromUserId).1
    else st
  let r := offerEvtHandlerStr st1
  let ems :=
    match r.2.2 with
    | .value (some a) => [ClientEmit.answerEmit fromUserId a]
    | _ => []
  (r.1, r.2.1 ++ ems, .value none)

/-!
### `pc.oniceconnectionstatechange`

Each callback firing carries the reported ICE connection state; for a
`failed` report, `stableAtTimer` tells whether `pc.signalingState` is
`'stable'` one second later when the scheduled retry timer runs (the code
then calls `pc.restartIce()`).  `restarts` counts the `restartIce` calls.
-/

/-- Per-peer view of the ICE-state callback: the `connectionStatus` entry,
the pending connect timer, and how many ICE restarts were attempted. -/
structure IceSession where
  status : Option String
  timerActive : Bool
  restarts : Nat
  deriving DecidableEq

/-- One firing of the ICE connection state callback. -/
structure IceEvent where
  state : String
  stableAtTimer : Bool
  deriving DecidableEq

/-- The body of `pc.oniceconnectionstatechange` (plus the 1-second retry
timer it schedules on `failed`). -/
def iceStateStep (s : IceSession) (e : IceEvent) : IceSession :=
  let s1 := { s with status := some e.state }
  if e.state = "connected" ∨ e.state = "completed" then
    { s1 with timerActive := false }
  else if e.state = "failed" then
    if e.stableAtTimer then { s1 with restarts := s1.restarts + 1 } else s1
  else s1

/-- A whole sequence of ICE state reports for one peer. -/
def iceStateRun (s : IceSession) (evs : List IceEvent) : IceSession :=
  evs.foldl iceStateStep s

/-!
## Observables and formalized claim statements
-/

/-- The candidates queued for a peer (empty when no queue entry exists). -/
def queueOf (st : ClientState) (peerId : String) : List Nat :=
  (alLookup st.iceCandidatesQueue peerId).getD []

/-- The candidates successfully applied on a peer's connection so far. -/
def appliedOf (st : ClientState) (peerId : String) : List Nat :=
  match alLookup st.peerConnections peerId with
  | some pc => pc.applied
  | none => []

/-- Does the peer's connection exist and have a remote description? -/
def remoteDescSet (st : ClientState) (peerId : String) : Bool :=
  match alLookup st.peerConnections peerId with
  | some pc => pc.remoteDescription.isSome
  | none => false

/-- The outbound senders of a peer's connection (their current tracks). -/
def sendersOf (st : ClientState) (peerId : String) : List Track :=
  match alLookup st.peerConnections peerId with
  | some pc => pc.senders
  | none => []

/-- Is an event one of the three forwarded negotiation messages? -/
def isForward : SEvent → Bool
  | .offerFwd _ _ _ => true
  | .answerFwd _ _ _ => true
  | .iceFwd _ _ _ => true
  | _ => false

/-- The routing condition exactly as the claim words it: both sender and
target have user records and share the same room id. -/
def claimCondC1 (st : ServerState) (sender target : String) : Bool :=
  match alLookup st.users sender, alLookup st.users target with
  | some fu, some tu => decide (fu.roomId = tu.roomId)
  | _, _ => false

/-- Claim C1 as stated: for each of the three relay messages, whenever the
sender/target pair fails the shared-room check, the sender gets `call-failed`
and nothing is forwarded. -/
def claimC1Statement : Prop :=
  ∀ (st : ServerState) (sender target : String) (payload : Nat) (m : SMsg),
    m ∈ [SMsg.offer sender target payload, SMsg.answer sender target payload,
         SMsg.iceCandidate sender target payload] →
    claimCondC1 st sender target = false →
    SEvent.callFailed sender ∈ (serverStep st m).2 ∧
      ∀ e ∈ (serverStep st m).2, isForward e = false

/-- Claim C6 as stated: starting from a fresh session, at most one ICE
restart is ever attempted, whatever sequence of ICE state reports arrives. -/
def claimC6Statement : Prop :=
  ∀ evs : List IceEvent, (iceStateRun ⟨none, true, 0⟩ evs).restarts ≤ 1

/-- Claim C7's idempotence clause as stated: repeating `updateStream` with
the same stream leaves the state unchanged, for every stream. -/
def claimC7Statement : Prop :=
  ∀ (st : ClientState) (p : String) (ts : List Track),
    (updateStream (updateStream st p ts).1 p ts).1 = (updateStream st p ts).1

/-- The payload of a `joined-room` event, if the event is one. -/
def joinedRoomPayload : SEvent → Option (String × String × List String)
  | .joinedRoom toSid roomId users => some (toSid, roomId, users)
  | _ => none

/-- The member (socket-id) list of a room, empty when the room is absent. -/
def roomMembers (st : ServerState) (roomId : String) : List String :=
  match alLookup st.rooms roomId with
  | some r => r.users.map Prod.fst
  | none => []

/-- Well-formedness of the room registry: within each room record, every
member entry's `id` field equals its map key, and member keys are distinct.
Both hold for every state reachable from an empty registry, since members are
only ever stored under `socket.id` and `user.id` is set to `socket.id` at
connection time and never reassigned. -/
def wfRooms (st : ServerState) : Prop :=
  ∀ pr ∈ st.rooms,
    (∀ p ∈ pr.2.users, p.2.id = p.1) ∧ ((pr.2.users.map Prod.fst).Nodup)

/-- Registry invariant of claim C4: no registered room is empty. -/
def noEmptyRoom (st : ServerState) : Prop :=
  ∀ p ∈ st.rooms, p.2.users ≠ []

/-!
## Concrete states used by counterexamples and witnesses
-/

/-- A user registered in room `r1`. -/
def uA : SUser := ⟨"A", some "a", some "r1", true, true, false⟩

/-- A user registered in room `r2`. -/
def uB : SUser := ⟨"B", some "b", some "r2", true, true, false⟩

/-- Two connected, registered users sitting in two different rooms. -/
def stCross : ServerState :=
  ⟨[("r1", ⟨[("A", uA)], "video"⟩), ("r2", ⟨[("B", uB)], "video"⟩)],
   [("A", uA), ("B", uB)],
   [("A", ⟨0, 0, 0⟩), ("B", ⟨0, 0, 0⟩)],
   ["A", "B"]⟩

/-- The empty server state. -/
def stEmpty : ServerState := ⟨[], [], [], []⟩

/-- A client peer connection with a completed negotiation. -/
def pcDemo : PeerConn := ⟨some 1, some 2, [5], [⟨"audio", 1⟩]⟩

/-- A client session for peer `"B"` populated in every keyed store. -/
def stClientB : ClientState :=
  ⟨[("B", pcDemo)], [("B", [9])], [("B", 3)], [("B", 1), ("B_ice", 2)],
   [("B", ⟨some "offer", false⟩)], [("B", 3)], [("B", "connected")], none⟩

/-- A client state with no connection for `"P"` but a non-empty queue. -/
def stClientQ : ClientState :=
  ⟨[], [("P", [4, 13])], [], [], [], [], [], none⟩

/-- A client state with a connection for `"P"` that sends no tracks yet. -/
def stClientE : ClientState :=
  ⟨[("P", ⟨none, none, [], []⟩)], [], [], [], [], [], [], none⟩

/-!
## Association-list lemmas
-/

@[simp] theorem alLookup_nil {α : Type} (k : String) :
    alLookup ([] : List (String × α)) k = none := rfl

@[simp] theorem alLookup_cons {α : Type} (k' k : String) (v : α) (l : List (String × α)) :
    alLookup ((k', v) :: l) k = if k' = k then some v else alLookup l k := rfl

@[simp] theorem alLookup_alSet_self {α : Type} (l : List (String × α)) (k : String) (v : α) :
    alLookup (alSet l k v) k = some v := by
  induction l with
  | nil => simp [alSet]
  | cons hd tl ih =>
    obtain ⟨k', v'⟩ := hd
    by_cases h : k' = k <;> simp [alSet, h, ih]

theorem alLookup_alSet_ne {α : Type} (l : List (String × α)) (k k' : String) (v : α)
    (h : k ≠ k') : alLookup (alSet l k v) k' = alLookup l k' := by
  induction l with
  | nil => simp [alSet, h]
  | cons hd tl ih =>
    obtain ⟨k₀, v₀⟩ := hd
    by_cases h0 : k₀ = k
    · subst h0
      simp [alSet, h]
    · simp [alSet, h0, ih]

@[simp] theorem alLookup_alErase_self {α : Type} (l : List (String × α)) (k : String) :
    alLookup (alErase l k) k = none := by
  induction l with
  | nil => simp [alErase]
  | cons hd tl ih =>
    obtain ⟨k', v'⟩ := hd
    by_cases h : k' = k <;> simp [alErase, h, ih]

theorem alLookup_alErase_ne {α : Type} (l : List (String × α)) (k k' : String)
    (h : k ≠ k') : alLookup (alErase l k) k' = alLookup l k' := by
  induction l with
  | nil => simp [alErase]
  | cons hd tl ih =>
    obtain ⟨k₀, v₀⟩ := hd
    by_cases h0 : k₀ = k
    · subst h0
      simp [alErase, h, ih]
    · by_cases h1 : k₀ = k'
      · simp [alErase, h0, h1, Ne.symm h]
      · simp [alErase, h0, h1, ih]

theorem alSet_ne_nil {α : Type} (l : List (String × α)) (k : String) (v : α) :
    alSet l k v ≠ [] := by
  cases l with
  | nil => simp [alSet]
  | cons hd tl =>
    obtain ⟨k', v'⟩ := hd
    by_cases h : k' = k <;> simp [alSet, h]

theorem alSet_alSet {α : Type} (l : List (String × α)) (k : String) (v w : α) :
    alSet (alSet l k v) k w = alSet l k w := by
  induction l with
  | nil => simp [alSet]
  | cons hd tl ih =>
    obtain ⟨k', v'⟩ := hd
    by_cases h : k' = k <;> simp [alSet, h, ih]

theorem mem_alSet {α : Type} (l : List (String × α)) (k : String) (v : α)
    (p : String × α) (hp : p ∈ alSet l k v) : p ∈ l ∨ p = (k, v) := by
  induction l with
  | nil => simpa [alSet] using hp
  | cons hd tl ih =>
    obtain ⟨k', v'⟩ := hd
    by_cases h : k' = k
    · simp [alSet, h] at hp
      rcases hp with hp | hp
      · right; simp [hp]
      · left; simp [hp]
    · simp [alSet, h] at hp
      rcases hp with hp | hp
      · left; simp [hp]
      · rcases ih hp with h' | h'
        · left; simp [h']
        · right; exact h'

theorem mem_alErase {α : Type} (l : List (String × α)) (k : String)
    (p : String × α) (hp : p ∈ alErase l k) : p ∈ l := by
  induction l with
  | nil => simp [alErase] at hp
  | cons hd tl ih =>
    obtain ⟨k₀, v₀⟩ := hd
    by_cases h : k₀ = k
    · simp [alErase, h] at hp
      exact List.mem_cons_of_mem _ (ih hp)
    · simp [alErase, h] at hp
      rcases hp with hp | hp
      · simp [hp]
      · exact List.mem_cons_of_mem _ (ih hp)

theorem alLookup_mem {α : Type} (l : List (String × α)) (k : String) (v : α)
    (h : alLookup l k = some v) : (k, v) ∈ l := by
  induction l with
  | nil => simp [alLookup] at h
  | cons hd tl ih =>
    obtain ⟨k', v'⟩ := hd
    by_cases hk : k' = k
    · subst hk
      simp [alLookup] at h
      simp [h]
    · simp [alLookup, hk] at h
      exact List.mem_cons_of_mem _ (ih h)

theorem ne_append_ice (p : String) : p ≠ p ++ "_ice" := by
  intro h
  have hlen := congrArg String.length h
  simp [String.length_append] at hlen
  exact absurd hlen (by decide)

/-!
## Claim C9: join-room without a user record
-/

/-- C9: a `join-room` from a connection with no backing user record answers
the sender (and only the sender) with an `error` event, mutates nothing
(no room created, no membership changed, nothing broadcast), and leaves the
connection able to retry. -/
theorem joinRoom_uninitialized_error_only (st : ServerState)
    (sid roomId userName roomType : String)
    (h : alLookup st.users sid = none) :
    serverStep st (.joinRoom sid roomId userName roomType) =
      (st, [SEvent.errorEvt sid]) := by
  simp [serverStep, onJoinRoom, h]

/-- Witness for C9 at a concrete state with no record for `"C"`. -/
theorem joinRoom_uninitialized_error_only_witness :
    alLookup stCross.users "C" = none ∧
      serverStep stCross (.joinRoom "C" "r1" "c" "video") =
        (stCross, [SEvent.errorEvt "C"]) :=
  ⟨by decide, joinRoom_uninitialized_error_only stCross "C" "r1" "c" "video" (by decide)⟩

/-!
## Claim C10: relay messages from an unregistered sender
-/

/-- C10: an `offer`, `answer` or `ice-candidate` whose sending socket has no
entry in the users map does nothing at all: no forward, no `call-failed`, no
error, and the state is untouched. -/
theorem relay_unregistered_sender_silent (st : ServerState)
    (sid target : String) (p : Nat)
    (h : alLookup st.users sid = none) :
    serverStep st (.offer sid target p) = (st, []) ∧
    serverStep st (.answer sid target p) = (st, []) ∧
    serverStep st (.iceCandidate sid target p) = (st, []) := by
  refine ⟨?_, ?_, ?_⟩ <;> simp [serverStep, onOffer, onAnswer, onIceCandidate, h]

/-- Witness for C10: a sender unknown to a populated registry. -/
theorem relay_unregistered_sender_silent_witness :
    alLookup stCross.users "Z" = none ∧
      serverStep stCross (.offer "Z" "A" 3) = (stCross, []) ∧
      serverStep stCross (.answer "Z" "A" 3) = (stCross, []) ∧
      serverStep stCross (.iceCandidate "Z" "A" 3) = (stCross, []) :=
  ⟨by decide, relay_unregistered_sender_silent stCross "Z" "A" 3 (by decide)⟩

/-!
## Claim C1: relay routing and the call-failed reply
-/

/-- C1 counterexample: at `stCross`, the cross-room ice-candidate from `"A"`
to `"B"` produces no events at all — in particular no `call-failed` — so the
claim that every non-routable offer/answer/ice-candidate yields `call-failed`
to the sender is false. -/
theorem relay_callFailed_claim_false : ¬ claimC1Statement := by
  intro h
  have h1 :=
    h stCross "A" "B" 0 (.iceCandidate "A" "B" 0) (by simp) (by decide)
  have h2 : (serverStep stCross (.iceCandidate "A" "B" 0)).2 = [] := by decide
  rw [h2] at h1
  exact absurd h1.1 (by simp)

/-- C1 (amended): for a registered sender, each of `offer`/`answer` is
forwarded iff the target socket is connected, the target has a user record
and the two share the same room id, and otherwise answers `call-failed` to
the sender; `ice-candidate` is forwarded under exactly the same condition but
on failure nothing is sent; in all cases the room and user registries are
untouched. -/
theorem relay_routing_amended (st : ServerState) (sender target : String)
    (p : Nat) (fu : SUser)
    (h : alLookup st.users sender = some fu) :
    ((serverStep st (.offer sender target p)).2 =
      if relayOk st fu target then [SEvent.offerFwd target sender p]
      else [SEvent.callFailed sender]) ∧
    ((serverStep st (.answer sender target p)).2 =
      if relayOk st fu target then [SEvent.answerFwd target sender p]
      else [SEvent.callFailed sender]) ∧
    ((serverStep st (.iceCandidate sender target p)).2 =
      if relayOk st fu target then [SEvent.iceFwd target sender p] else []) ∧
    (∀ m ∈ [SMsg.offer sender target p, SMsg.answer sender target p,
            SMsg.iceCandidate sender target p],
      (serverStep st m).1.rooms = st.rooms ∧ (serverStep st m).1.users = st.users) := by
  by_cases hr : relayOk st fu target <;>
    refine ⟨?_, ?_, ?_, ?_⟩ <;>
    simp [serverStep, onOffer, onAnswer, onIceCandidate, h, hr]

/-- Witness for C1 (amended) at the cross-room state: the routing condition
fails and the ice-candidate branch sends nothing while the offer branch sends
`call-failed`. -/
theorem relay_routing_amended_witness :
    alLookup stCross.users "A" = some uA ∧
      relayOk stCross uA "B" = false ∧
      (serverStep stCross (.iceCandidate "A" "B" 0)).2 = [] ∧
      (serverStep stCross (.offer "A" "B" 0)).2 = [SEvent.callFailed "A"] := by
  have h := relay_routing_amended stCross "A" "B" 0 uA (by decide)
  refine ⟨by decide, by decide, ?_, ?_⟩
  · have h3 := h.2.2.1
    simpa [(by decide : relayOk stCross uA "B" = false)] using h3
  · have h1 := h.1
    simpa [(by decide : relayOk stCross uA "B" = false)] using h1

/-!
## Claim C4: no empty room survives a handler
-/

theorem handleUserLeave_noEmptyRoom (st : ServerState) (sid : String)
    (h : noEmptyRoom st) : noEmptyRoom (handleUserLeave st sid).1 := by
  unfold handleUserLeave
  cases hu : alLookup st.users sid with
  | none => simpa [noEmptyRoom] using h
  | some u =>
    obtain ⟨uid, uname, uroom, ua, uv, us⟩ := u
    dsimp only
    cases uroom with
    | none => simpa [noEmptyRoom] using h
    | some rid =>
      dsimp only
      split
      · simpa [noEmptyRoom] using h
      · cases hrm : alLookup st.rooms rid with
        | none => simpa [noEmptyRoom] using h
        | some room =>
          dsimp only
          split
          · intro pr hpr
            exact h pr (mem_alErase _ _ _ hpr)
          case isFalse hz =>
            intro pr hpr
            rcases mem_alSet _ _ _ _ hpr with h1 | h1
            · exact h pr h1
            · subst h1
              intro hnil
              simp only at hnil
              exact hz (by simp [hnil])

theorem onJoinRoom_noEmptyRoom (st : ServerState)
    (sid roomId userName roomType : String)
    (h : noEmptyRoom st) :
    noEmptyRoom (onJoinRoom st sid roomId userName roomType).1 := by
  unfold onJoinRoom
  cases hu : alLookup st.users sid with
  | none => simpa [noEmptyRoom] using h
  | some u =>
    dsimp only
    split
    case isTrue hc =>
      have h1 := handleUserLeave_noEmptyRoom st sid h
      generalize (handleUserLeave st sid).1 = S at h1 ⊢
      split
      case isTrue hc2 =>
        intro pr hpr
        simp only [alLookup_alSet_self, Option.getD_some, alSet_alSet] at hpr
        rcases mem_alSet _ _ _ _ hpr with h2 | h2
        · exact h1 pr h2
        · subst h2
          exact alSet_ne_nil _ _ _
      case isFalse hc2 =>
        intro pr hpr
        rcases mem_alSet _ _ _ _ hpr with h2 | h2
        · exact h1 pr h2
        · subst h2
          exact alSet_ne_nil _ _ _
    case isFalse hc =>
      split
      case isTrue hc2 =>
        intro pr hpr
        simp only [alLookup_alSet_self, Option.getD_some, alSet_alSet] at hpr
        rcases mem_alSet _ _ _ _ hpr with h2 | h2
        · exact h pr h2
        · subst h2
          exact alSet_ne_nil _ _ _
      case isFalse hc2 =>
        intro pr hpr
        rcases mem_alSet _ _ _ _ hpr with h2 | h2
        · exact h pr h2
        · subst h2
          exact alSet_ne_nil _ _ _

/-- C4: after any single handler step (connect, join-room, the relay
messages, leave-room, disconnect), no room with an empty member set remains
in the rooms map: a room is deleted in the same handler step that removes its
last member. -/
theorem registry_no_empty_room (st : ServerState) (m : SMsg)
    (h : noEmptyRoom st) : noEmptyRoom (serverStep st m).1 := by
  cases m with
  | connect sid => simpa [serverStep, onConnect, noEmptyRoom] using h
  | offer sid target p =>
    cases hu : alLookup st.users sid with
    | none => simpa [serverStep, onOffer, hu, noEmptyRoom] using h
    | some fu =>
      by_cases hr : relayOk st fu target <;>
        simpa [serverStep, onOffer, hu, hr, noEmptyRoom] using h
  | answer sid target p =>
    cases hu : alLookup st.users sid with
    | none => simpa [serverStep, onAnswer, hu, noEmptyRoom] using h
    | some fu =>
      by_cases hr : relayOk st fu target <;>
        simpa [serverStep, onAnswer, hu, hr, noEmptyRoom] using h
  | iceCandidate sid target p =>
    cases hu : alLookup st.users sid with
    | none => simpa [serverStep, onIceCandidate, hu, noEmptyRoom] using h
    | some fu =>
      by_cases hr : relayOk st fu target <;>
        simpa [serverStep, onIceCandidate, hu, hr, noEmptyRoom] using h
  | leaveRoom sid =>
    simpa [serverStep] using handleUserLeave_noEmptyRoom st sid h
  | disconnect sid =>
    have h1 := handleUserLeave_noEmptyRoom st sid h
    simpa [serverStep, onDisconnect, noEmptyRoom] using h1
  | joinRoom sid roomId userName roomType =>
    simpa [serverStep] using onJoinRoom_noEmptyRoom st sid roomId userName roomType h

/-- Witness for C4 at a concrete two-room state and a leave that empties
room `r1`. -/
theorem registry_no_empty_room_witness :
    noEmptyRoom stCross ∧ noEmptyRoom (serverStep stCross (.leaveRoom "A")).1 :=
  ⟨by unfold noEmptyRoom; decide,
    registry_no_empty_room stCross (.leaveRoom "A") (by unfold noEmptyRoom; decide)⟩

/-!
## Claim C8: closing a peer session
-/

/-- C8: `closePeerConnection` is idempotent on the session state — closing
the same peer twice leaves every store exactly as closing it once — and a
single close of an existing session removes the peer's entry from every
internal index (connection, queue, stream cache, both timers, remotePeers,
remoteStreams, connectionStatus). -/
theorem closePeerConnection_idempotent_complete :
    (∀ (st : ClientState) (p : String),
      (closePeerConnection (closePeerConnection st p).1 p).1 =
        (closePeerConnection st p).1) ∧
    (∀ (st : ClientState) (p : String),
      (alLookup st.peerConnections p).isSome = true →
      alLookup (closePeerConnection st p).1.peerConnections p = none ∧
      alLookup (closePeerConnection st p).1.iceCandidatesQueue p = none ∧
      alLookup (closePeerConnection st p).1.remoteStreamsRef p = none ∧
      alLookup (closePeerConnection st p).1.connectionTimeouts p = none ∧
      alLookup (closePeerConnection st p).1.connectionTimeouts (p ++ "_ice") = none ∧
      alLookup (closePeerConnection st p).1.remotePeers p = none ∧
      alLookup (closePeerConnection st p).1.remoteStreams p = none ∧
      alLookup (closePeerConnection st p).1.connectionStatus p = none) := by
  constructor
  · intro st p
    cases hc : alLookup st.peerConnections p with
    | none => simp [closePeerConnection, hc]
    | some pc => simp [closePeerConnection, hc]
  · intro st p hs
    cases hc : alLookup st.peerConnections p with
    | none => simp [hc] at hs
    | some pc =>
      have htp : alLookup (alErase (alErase st.connectionTimeouts p) (p ++ "_ice")) p =
          alLookup (alErase st.connectionTimeouts p) p :=
        alLookup_alErase_ne _ _ _ (Ne.symm (ne_append_ice p))
      refine ⟨?_, ?_, ?_, ?_, ?_, ?_, ?_, ?_⟩ <;>
        simp [closePeerConnection, hc, htp]

/-- Witness for C8 at a fully populated session for `"B"`. -/
theorem closePeerConnection_idempotent_complete_witness :
    (alLookup stClientB.peerConnections "B").isSome = true ∧
      (closePeerConnection (closePeerConnection stClientB "B").1 "B").1 =
        (closePeerConnection stClientB "B").1 ∧
      alLookup (closePeerConnection stClientB "B").1.iceCandidatesQueue "B" = none :=
  ⟨by decide, closePeerConnection_idempotent_complete.1 stClientB "B",
    (closePeerConnection_idempotent_complete.2 stClientB "B" (by decide)).2.1⟩

/-!
## Claim C2: ICE candidate queueing and replay
-/

/-- C2: a candidate arriving with no connection or no remote description is
appended to the peer's FIFO queue (and reported as non-applied, not as an
error); with a remote description set it is applied directly and never
queued; the queue flush applies the queued candidates once, in arrival
order (skipping individual failures without aborting), and empties the
queue; flushing twice equals flushing once; and the hook's `handleAnswer`
(which sets the remote description) performs exactly that flush. -/
theorem ice_candidates_queued_and_replayed (candOk : Nat → Bool)
    (st : ClientState) (p : String) (c a : Nat) :
    (remoteDescSet st p = false →
      addIceCandidate candOk st p c =
        ({ st with iceCandidatesQueue := alSet st.iceCandidatesQueue p (queueOf st p ++ [c]) }, false)) ∧
    (remoteDescSet st p = true →
      queueOf (addIceCandidate candOk st p c).1 p = queueOf st p ∧
      appliedOf (addIceCandidate candOk st p c).1 p =
        appliedOf st p ++ (if candOk c then [c] else []) ∧
      (addIceCandidate candOk st p c).2 = candOk c) ∧
    (remoteDescSet st p = true →
      appliedOf (processIceCandidateQueue candOk st p) p =
        appliedOf st p ++ (queueOf st p).filter candOk ∧
      queueOf (processIceCandidateQueue candOk st p) p = []) ∧
    (processIceCandidateQueue candOk (processIceCandidateQueue candOk st p) p =
      processIceCandidateQueue candOk st p) ∧
    ((alLookup st.peerConnections p).isSome = true →
      appliedOf (hookHandleAnswer candOk st p a).1 p =
        appliedOf st p ++ (queueOf st p).filter candOk ∧
      queueOf (hookHandleAnswer candOk st p a).1 p = []) := by
  refine ⟨?_, ?_, ?_, ?_, ?_⟩
  · intro hrd
    cases hc : alLookup st.peerConnections p with
    | none => simp [addIceCandidate, hc, queueOf]
    | some pc =>
      cases hd : pc.remoteDescription with
      | none => simp [addIceCandidate, hc, hd, queueOf]
      | some d => simp [remoteDescSet, hc, hd] at hrd
  · intro hrd
    cases hc : alLookup st.peerConnections p with
    | none => simp [remoteDescSet, hc] at hrd
    | some pc =>
      cases hd : pc.remoteDescription with
      | none => simp [remoteDescSet, hc, hd] at hrd
      | some d =>
        by_cases hok : candOk c = true <;>
          simp [addIceCandidate, hc, hd, hok, queueOf, appliedOf]
  · intro hrd
    cases hc : alLookup st.peerConnections p with
    | none => simp [remoteDescSet, hc] at hrd
    | some pc =>
      cases hd : pc.remoteDescription with
      | none => simp [remoteDescSet, hc, hd] at hrd
      | some d =>
        cases hq : alLookup st.iceCandidatesQueue p with
        | none => simp [processIceCandidateQueue, hc, hd, hq, queueOf, appliedOf]
        | some q =>
          cases q with
          | nil => simp [processIceCandidateQueue, hc, hd, hq, queueOf, appliedOf]
          | cons q0 qs =>
            simp [processIceCandidateQueue, hc, hd, hq, queueOf, appliedOf]
  · cases hc : alLookup st.peerConnections p with
    | none => simp [processIceCandidateQueue, hc]
    | some pc =>
      cases hd : pc.remoteDescription with
      | none => simp [processIceCandidateQueue, hc, hd]
      | some d =>
        cases hq : alLookup st.iceCandidatesQueue p with
        | none => simp [processIceCandidateQueue, hc, hd, hq]
        | some q =>
          cases q with
          | nil => simp [processIceCandidateQueue, hc, hd, hq]
          | cons q0 qs =>
            simp [processIceCandidateQueue, hc, hd, hq]
  · intro hs
    cases hc : alLookup st.peerConnections p with
    | none => simp [hc] at hs
    | some pc =>
      cases hq : alLookup st.iceCandidatesQueue p with
      | none =>
        simp [hookHandleAnswer, processIceCandidateQueue, hc, hq, queueOf, appliedOf]
      | some q =>
        cases q with
        | nil =>
          simp [hookHandleAnswer, processIceCandidateQueue, hc, hq, queueOf, appliedOf]
        | cons q0 qs =>
          simp [hookHandleAnswer, processIceCandidateQueue, hc, hq, queueOf, appliedOf]

/-- Witness for C2: a candidate for a connection-less peer is queued behind
the existing queue; the second flush after an answer is a no-op. -/
theorem ice_candidates_queued_and_replayed_witness :
    remoteDescSet stClientQ "P" = false ∧
      addIceCandidate (fun c => c ≠ 13) stClientQ "P" 7 =
        ({ stClientQ with iceCandidatesQueue := alSet stClientQ.iceCandidatesQueue "P" (queueOf stClientQ "P" ++ [7]) }, false) :=
  ⟨by decide,
    (ice_candidates_queued_and_replayed (fun c => c ≠ 13) stClientQ "P" 7 0).1 (by decide)⟩

/-!
## Claim C6: ICE restart policy
-/

theorem iceStateStep_restarts (s : IceSession) (e : IceEvent) :
    (iceStateStep s e).restarts =
      s.restarts + (if e.state = "failed" ∧ e.stableAtTimer = true then 1 else 0) := by
  unfold iceStateStep
  by_cases h1 : e.state = "connected" ∨ e.state = "completed"
  · have hne : ¬(e.state = "failed" ∧ e.stableAtTimer = true) := by
      rintro ⟨hf, _⟩
      rcases h1 with h | h <;> rw [h] at hf <;> exact absurd hf (by decide)
    simp [h1, hne]
  · by_cases h2 : e.state = "failed"
    · by_cases h3 : e.stableAtTimer = true <;> simp [h1, h2, h3]
    · simp [h1, h2]

/-- C6 counterexample: two consecutive `failed` reports with a stable
signaling state at both retry timers cause two ICE restarts, so "at most one
restart per session, and no further automatic restarts" is false. -/
theorem ice_restart_claim_false : ¬ claimC6Statement := by
  intro h
  have h2 := h [⟨"failed", true⟩, ⟨"failed", true⟩]
  exact absurd h2 (by decide)

/-- C6 (amended): every `failed` ICE state report schedules a restart that
runs iff the signaling state is stable when the 1-second timer fires; the
number of restarts equals the number of such reports, with no bound and no
terminal give-up; each report simply overwrites the surfaced per-peer
status with the reported state (the connect timer is cleared on
`connected`/`completed`). -/
theorem ice_restart_every_failure (s0 : IceSession) (evs : List IceEvent)
    (s : IceSession) (e : IceEvent) :
    (iceStateRun s0 evs).restarts =
      s0.restarts +
        (evs.filter (fun ev => decide (ev.state = "failed") && ev.stableAtTimer)).length ∧
    (iceStateStep s e).status = some e.state := by
  constructor
  · induction evs generalizing s0 with
    | nil => simp [iceStateRun]
    | cons ev evs ih =>
      have h1 : iceStateRun s0 (ev :: evs) = iceStateRun (iceStateStep s0 ev) evs := rfl
      rw [h1, ih, iceStateStep_restarts]
      by_cases hp : ev.state = "failed" ∧ ev.stableAtTimer = true
      · simp only [List.filter_cons]
        have hb : (decide (ev.state = "failed") && ev.stableAtTimer) = true := by
          simp [hp.1, hp.2]
        simp [hb, hp]
        omega
      · simp only [List.filter_cons]
        have hb : (decide (ev.state = "failed") && ev.stableAtTimer) = false := by
          by_cases hf : ev.state = "failed"
          · have hstf : ev.stableAtTimer = false := by
              cases hst : ev.stableAtTimer
              · rfl
              · exact absurd ⟨hf, hst⟩ hp
            simp [hstf]
          · simp [hf]
        simp [hb, hp]
  · unfold iceStateStep
    by_cases h1 : e.state = "connected" ∨ e.state = "completed"
    · simp [h1]
    · by_cases h2 : e.state = "failed"
      · by_cases h3 : e.stableAtTimer = true <;> simp [h1, h2, h3]
      · simp [h1, h2]

/-!
## Claim C5: the offer listener
-/

/-- C5: the component's `offer` listener never produces or sends an answer —
for every state and sender it emits nothing and resolves with `undefined` —
and at a concrete populated session it tears the old session down and then
builds nothing: after handling an offer from `"B"` there is no connection for
`"B"` at all, no event was emitted, and the state equals the plain
`closePeerConnection` result.  (The inner call that should reach the hook's
`handleOffer` instead hits the shadowing listener itself.) -/
theorem offer_listener_never_answers :
    (∀ (st : ClientState) (u : String),
      (offerEvtHandler u st).2.1 = [] ∧ (offerEvtHandler u st).2.2 = .value none) ∧
    offerEvtHandler "B" stClientB = ((closePeerConnection stClientB "B").1, [], .value none) ∧
    alLookup (offerEvtHandler "B" stClientB).1.peerConnections "B" = none := by
  refine ⟨?_, by decide, by decide⟩
  intro st u
  simp [offerEvtHandler, offerEvtHandlerStr, offerEvtHandlerUndef]

/-!
## Claim C7: updateStream sender algebra
-/

theorem listGet?_set_self {α : Type} (l : List α) (i : Nat) (v : α)
    (h : i < l.length) : (l.set i v).get? i = some v := by
  induction l generalizing i with
  | nil => simp at h
  | cons x xs ih =>
    cases i with
    | zero => rfl
    | succ n =>
      simp only [List.set, List.get?]
      exact ih n (by simpa using h)

theorem listGet?_set_ne {α : Type} (l : List α) (i j : Nat) (v : α)
    (h : i ≠ j) : (l.set i v).get? j = l.get? j := by
  induction l generalizing i j with
  | nil => rfl
  | cons x xs ih =>
    cases i with
    | zero =>
      cases j with
      | zero => exact absurd rfl h
      | succ m => rfl
    | succ n =>
      cases j with
      | zero => rfl
      | succ m =>
        simp only [List.set, List.get?]
        exact ih n m (fun he => h (by rw [he]))

theorem listSet_of_get?_eq {α : Type} (l : List α) (i : Nat) (v : α)
    (h : l.get? i = some v) : l.set i v = l := by
  induction l generalizing i with
  | nil => rfl
  | cons x xs ih =>
    cases i with
    | zero =>
      simp only [List.get?] at h
      injection h with h
      rw [← h]
      rfl
    | succ n =>
      simp only [List.get?] at h
      simp only [List.set]
      rw [ih n h]

theorem listSet_append_of_lt {α : Type} (l₁ l₂ : List α) (i : Nat) (v : α)
    (h : i < l₁.length) : (l₁ ++ l₂).set i v = l₁.set i v ++ l₂ := by
  induction l₁ generalizing i with
  | nil => simp at h
  | cons x xs ih =>
    cases i with
    | zero => rfl
    | succ n =>
      simp only [List.cons_append, List.set, List.append_eq]
      rw [ih n (by simpa using h)]

theorem listGet?_append_of_lt {α : Type} (l₁ l₂ : List α) (i : Nat)
    (h : i < l₁.length) : (l₁ ++ l₂).get? i = l₁.get? i := by
  induction l₁ generalizing i with
  | nil => simp at h
  | cons x xs ih =>
    cases i with
    | zero => rfl
    | succ n =>
      simp only [List.cons_append, List.get?]
      exact ih n (by simpa using h)

theorem listGet?_append_add {α : Type} (l₁ l₂ : List α) (i : Nat) :
    (l₁ ++ l₂).get? (l₁.length + i) = l₂.get? i := by
  induction l₁ with
  | nil => simp
  | cons x xs ih =>
    have hn : (x :: xs).length + i = (xs.length + i) + 1 := by
      rw [List.length_cons]
      omega
    rw [hn]
    simpa using ih

theorem listMap_set {α β : Type} (l : List α) (i : Nat) (v : α) (f : α → β) :
    (l.set i v).map f = (l.map f).set i (f v) := by
  induction l generalizing i with
  | nil => rfl
  | cons x xs ih =>
    cases i with
    | zero => rfl
    | succ n =>
      simp only [List.set, List.map]
      rw [ih n]

theorem findSenderIdx_eq_none (s : List Track) (k : String)
    (h : hasSenderOfKind s k = false) : findSenderIdx s k = none := by
  induction s with
  | nil => rfl
  | cons x xs ih =>
    simp [hasSenderOfKind] at h
    simp [findSenderIdx, h.1]
    exact ih (by simp [hasSenderOfKind]; exact h.2)

theorem findSenderIdx_none_not_has (s : List Track) (k : String)
    (h : findSenderIdx s k = none) : hasSenderOfKind s k = false := by
  induction s with
  | nil => rfl
  | cons x xs ih =>
    by_cases hx : x.kind = k
    · simp [findSenderIdx, hx] at h
    · simp [findSenderIdx, hx] at h
      simp [hasSenderOfKind, hx]
      have := ih h
      simp [hasSenderOfKind] at this
      exact this

theorem findSenderIdx_isSome_of_has (s : List Track) (k : String)
    (h : hasSenderOfKind s k = true) : ∃ i, findSenderIdx s k = some i := by
  cases hf : findSenderIdx s k with
  | some i => exact ⟨i, rfl⟩
  | none =>
    rw [findSenderIdx_none_not_has s k hf] at h
    exact absurd h (by simp)

theorem findSenderIdx_lt_length (s : List Track) (k : String) (i : Nat)
    (h : findSenderIdx s k = some i) : i < s.length := by
  induction s generalizing i with
  | nil => simp [findSenderIdx] at h
  | cons x xs ih =>
    by_cases hx : x.kind = k
    · simp [findSenderIdx, hx] at h
      simp [← h]
    · simp [findSenderIdx, hx] at h
      obtain ⟨j, hj, hji⟩ := h
      have := ih j hj
      simp [← hji]
      omega

theorem findSenderIdx_kind (s : List Track) (k : String) (i : Nat)
    (h : findSenderIdx s k = some i) : (s.map Track.kind).get? i = some k := by
  induction s generalizing i with
  | nil => simp [findSenderIdx] at h
  | cons x xs ih =>
    by_cases hx : x.kind = k
    · simp [findSenderIdx, hx] at h
      simp [← h, List.map, List.get?, hx]
    · simp [findSenderIdx, hx] at h
      obtain ⟨j, hj, hji⟩ := h
      rw [← hji]
      simpa using ih j hj

theorem set_findSenderIdx_eq_replaceTrackFirst (s : List Track) (t : Track) (i : Nat)
    (h : findSenderIdx s t.kind = some i) : s.set i t = replaceTrackFirst s t := by
  induction s generalizing i with
  | nil => rfl
  | cons x xs ih =>
    by_cases hx : x.kind = t.kind
    · simp [findSenderIdx, hx] at h
      rw [← h]
      simp [replaceTrackFirst, hx, List.set]
    · simp [findSenderIdx, hx] at h
      obtain ⟨j, hj, hji⟩ := h
      rw [← hji]
      simp [replaceTrackFirst, hx, List.set]
      exact ih j hj

theorem findSenderIdx_congr_kinds (s₁ s₂ : List Track) (k : String)
    (h : s₁.map Track.kind = s₂.map Track.kind) :
    findSenderIdx s₁ k = findSenderIdx s₂ k := by
  induction s₁ generalizing s₂ with
  | nil =>
    have : s₂ = [] := by
      cases s₂ with
      | nil => rfl
      | cons y ys => simp at h
    rw [this]
  | cons x xs ih =>
    cases s₂ with
    | nil => simp at h
    | cons y ys =>
      simp only [List.map, List.cons.injEq] at h
      by_cases hx : x.kind = k
      · simp [findSenderIdx, hx, h.1 ▸ hx]
      · have hy : ¬ y.kind = k := by rw [← h.1]; exact hx
        simp [findSenderIdx, hx, hy]
        rw [ih ys h.2]

theorem findSenderIdx_append_some (s x : List Track) (k : String) (i : Nat)
    (h : findSenderIdx s k = some i) : findSenderIdx (s ++ x) k = some i := by
  induction s generalizing i with
  | nil => simp [findSenderIdx] at h
  | cons s0 ss ih =>
    by_cases hx : s0.kind = k
    · simp [findSenderIdx, hx] at h ⊢
      exact h
    · simp [findSenderIdx, hx] at h ⊢
      obtain ⟨j, hj, hji⟩ := h
      exact ⟨j, ih j hj, hji⟩

theorem findSenderIdx_append_none (s x : List Track) (k : String)
    (h : findSenderIdx s k = none) :
    findSenderIdx (s ++ x) k = (findSenderIdx x k).map (· + s.length) := by
  induction s with
  | nil =>
    simp only [List.nil_append, List.length_nil]
    cases findSenderIdx x k <;> simp
  | cons s0 ss ih =>
    by_cases hx : s0.kind = k
    · simp [findSenderIdx, hx] at h
    · have h2 : findSenderIdx ss k = none := by
        cases hf : findSenderIdx ss k with
        | none => rfl
        | some j => simp [findSenderIdx, hx, hf] at h
      have hl : findSenderIdx ((s0 :: ss) ++ x) k =
          (findSenderIdx (ss ++ x) k).map (· + 1) := by
        simp [findSenderIdx, hx]
      rw [hl, ih h2]
      cases hfx : findSenderIdx x k with
      | none => rfl
      | some q =>
        simp [List.length_cons]
        omega

theorem hasSenderOfKind_congr_kinds (s₁ s₂ : List Track) (k : String)
    (h : s₁.map Track.kind = s₂.map Track.kind) :
    hasSenderOfKind s₁ k = hasSenderOfKind s₂ k := by
  have h1 : ∀ s : List Track,
      hasSenderOfKind s k = (s.map Track.kind).any (fun x => decide (x = k)) := by
    intro s
    induction s with
    | nil => rfl
    | cons y ys ih =>
      simp only [hasSenderOfKind, List.map, List.any_cons] at ih ⊢
      rw [ih]
  rw [h1, h1, h]

theorem hasSenderOfKind_append (a b : List Track) (k : String) :
    hasSenderOfKind (a ++ b) k = (hasSenderOfKind a k || hasSenderOfKind b k) := by
  simp [hasSenderOfKind, List.any_append]

theorem length_setsOnly (S : List Track) (ts : List Track) :
    ∀ cur, (setsOnly S cur ts).length = cur.length := by
  induction ts with
  | nil => intro cur; rfl
  | cons t ts ih =>
    intro cur
    cases hf : findSenderIdx S t.kind with
    | none =>
      have h1 : setsOnly S cur (t :: ts) = setsOnly S cur ts := by simp [setsOnly, hf]
      rw [h1, ih]
    | some i =>
      have h1 : setsOnly S cur (t :: ts) = setsOnly S (cur.set i t) ts := by
        simp [setsOnly, hf]
      rw [h1, ih]
      simp

theorem setsOnly_append (S : List Track) (ts : List Track) :
    ∀ cur X, S.length ≤ cur.length →
      setsOnly S (cur ++ X) ts = setsOnly S cur ts ++ X := by
  induction ts with
  | nil => intro cur X _; rfl
  | cons t ts ih =>
    intro cur X hlen
    cases hf : findSenderIdx S t.kind with
    | none =>
      have h1 : setsOnly S (cur ++ X) (t :: ts) = setsOnly S (cur ++ X) ts := by
        simp [setsOnly, hf]
      have h2 : setsOnly S cur (t :: ts) = setsOnly S cur ts := by simp [setsOnly, hf]
      rw [h1, h2, ih cur X hlen]
    | some i =>
      have hi : i < cur.length :=
        lt_of_lt_of_le (findSenderIdx_lt_length S t.kind i hf) hlen
      have h1 : setsOnly S (cur ++ X) (t :: ts) = setsOnly S ((cur ++ X).set i t) ts := by
        simp [setsOnly, hf]
      have h2 : setsOnly S cur (t :: ts) = setsOnly S (cur.set i t) ts := by
        simp [setsOnly, hf]
      rw [h1, h2, listSet_append_of_lt cur X i t hi, ih (cur.set i t) X (by simpa using hlen)]

theorem updateStream_fold_closed (S : List Track) (ts : List Track) :
    ∀ cur, S.length ≤ cur.length →
      ts.foldl (updateStreamStep S) cur = setsOnly S cur ts ++ freshTracks S ts := by
  induction ts with
  | nil => intro cur _; simp [setsOnly, freshTracks]
  | cons t ts ih =>
    intro cur hlen
    have hstep : (t :: ts).foldl (updateStreamStep S) cur =
        ts.foldl (updateStreamStep S) (updateStreamStep S cur t) := rfl
    rw [hstep]
    cases hf : findSenderIdx S t.kind with
    | some i =>
      have hhas : hasSenderOfKind S t.kind = true := by
        cases hh : hasSenderOfKind S t.kind with
        | true => rfl
        | false => rw [findSenderIdx_eq_none S t.kind hh] at hf; exact absurd hf (by simp)
      have hs : updateStreamStep S cur t = cur.set i t := by simp [updateStreamStep, hf]
      have h1 : setsOnly S cur (t :: ts) = setsOnly S (cur.set i t) ts := by
        simp [setsOnly, hf]
      have h2 : freshTracks S (t :: ts) = freshTracks S ts := by
        simp [freshTracks, List.filter_cons, hhas]
      rw [hs, ih (cur.set i t) (by simpa using hlen), h1, h2]
    | none =>
      have hhas : hasSenderOfKind S t.kind = false := findSenderIdx_none_not_has _ _ hf
      have hs : updateStreamStep S cur t = cur ++ [t] := by simp [updateStreamStep, hf]
      have h1 : setsOnly S cur (t :: ts) = setsOnly S cur ts := by simp [setsOnly, hf]
      have h2 : freshTracks S (t :: ts) = t :: freshTracks S ts := by
        simp [freshTracks, List.filter_cons, hhas]
      rw [hs, ih (cur ++ [t]) (by simp; omega), setsOnly_append S ts cur [t] hlen, h1, h2]
      simp

theorem updateStreamTracks_closed (S : List Track) (ts : List Track) :
    updateStreamTracks S ts = setsOnly S S ts ++ freshTracks S ts :=
  updateStream_fold_closed S ts S (le_refl _)

theorem kinds_setsOnly (S : List Track) (ts : List Track) :
    ∀ cur,
      (∀ i k, (S.map Track.kind).get? i = some k → (cur.map Track.kind).get? i = some k) →
      (setsOnly S cur ts).map Track.kind = cur.map Track.kind := by
  induction ts with
  | nil => intro cur _; rfl
  | cons t ts ih =>
    intro cur hkp
    cases hf : findSenderIdx S t.kind with
    | none =>
      have h1 : setsOnly S cur (t :: ts) = setsOnly S cur ts := by simp [setsOnly, hf]
      rw [h1]
      exact ih cur hkp
    | some i =>
      have h1 : setsOnly S cur (t :: ts) = setsOnly S (cur.set i t) ts := by
        simp [setsOnly, hf]
      have hSk := findSenderIdx_kind S t.kind i hf
      have hck := hkp i t.kind hSk
      have hkinds : (cur.set i t).map Track.kind = cur.map Track.kind := by
        rw [listMap_set]
        exact listSet_of_get?_eq _ _ _ hck
      rw [h1, ih (cur.set i t) (by intro j k hj; rw [hkinds]; exact hkp j k hj), hkinds]

theorem setsOnly_get?_of_not_kind (S : List Track) (k0 : String) (i : Nat)
    (hSk : (S.map Track.kind).get? i = some k0) :
    ∀ us cur, (∀ u ∈ us, u.kind ≠ k0) → (setsOnly S cur us).get? i = cur.get? i := by
  intro us
  induction us with
  | nil => intro cur _; rfl
  | cons u us ih =>
    intro cur hall
    cases hf : findSenderIdx S u.kind with
    | none =>
      have h1 : setsOnly S cur (u :: us) = setsOnly S cur us := by simp [setsOnly, hf]
      rw [h1]
      exact ih cur (fun w hw => hall w (List.mem_cons_of_mem _ hw))
    | some j =>
      have hji : j ≠ i := by
        intro he
        have hk := findSenderIdx_kind S u.kind j hf
        rw [he, hSk] at hk
        injection hk with hk
        exact hall u (List.mem_cons_self _ _) hk.symm
      have h1 : setsOnly S cur (u :: us) = setsOnly S (cur.set j u) us := by
        simp [setsOnly, hf]
      rw [h1, ih (cur.set j u) (fun w hw => hall w (List.mem_cons_of_mem _ hw))]
      exact listGet?_set_ne cur j i u hji

theorem setsOnly_get?_self (S : List Track) :
    ∀ (ts : List Track) (t : Track) (i : Nat) (cur : List Track),
      (ts.map Track.kind).Nodup → t ∈ ts → findSenderIdx S t.kind = some i →
      S.length ≤ cur.length →
      (setsOnly S cur ts).get? i = some t := by
  intro ts
  induction ts with
  | nil =>
    intro t i cur _ ht
    simp at ht
  | cons u us ih =>
    intro t i cur hnd ht hf hlen
    have hnd1 : u.kind ∉ us.map Track.kind := (List.nodup_cons.mp hnd).1
    have hnd2 : (us.map Track.kind).Nodup := (List.nodup_cons.mp hnd).2
    rcases List.mem_cons.mp ht with heq | hmem
    · subst heq
      have h1 : setsOnly S cur (t :: us) = setsOnly S (cur.set i t) us := by
        simp [setsOnly, hf]
      have hik := findSenderIdx_kind S t.kind i hf
      have hall : ∀ w ∈ us, w.kind ≠ t.kind := by
        intro w hw he
        exact hnd1 (List.mem_map.mpr ⟨w, hw, he⟩)
      rw [h1, setsOnly_get?_of_not_kind S t.kind i hik us (cur.set i t) hall]
      exact listGet?_set_self cur i t
        (lt_of_lt_of_le (findSenderIdx_lt_length S t.kind i hf) hlen)
    · cases hfu : findSenderIdx S u.kind with
      | none =>
        have h1 : setsOnly S cur (u :: us) = setsOnly S cur us := by simp [setsOnly, hfu]
        rw [h1]
        exact ih t i cur hnd2 hmem hf hlen
      | some j =>
        have h1 : setsOnly S cur (u :: us) = setsOnly S (cur.set j u) us := by
          simp [setsOnly, hfu]
        rw [h1]
        exact ih t i (cur.set j u) hnd2 hmem hf (by simpa using hlen)

theorem findSenderIdx_unique_mem (A : List Track) (t : Track)
    (huniq : ∀ u ∈ A, u.kind = t.kind → u = t) (hmem : t ∈ A) :
    ∃ q, findSenderIdx A t.kind = some q ∧ A.get? q = some t := by
  induction A with
  | nil => simp at hmem
  | cons x xs ih =>
    by_cases hx : x.kind = t.kind
    · have hxt : x = t := huniq x (List.mem_cons_self _ _) hx
      exact ⟨0, by simp [findSenderIdx, hx], by simp [hxt, List.get?]⟩
    · have hmem2 : t ∈ xs := by
        rcases List.mem_cons.mp hmem with heq | h2
        · exact absurd (heq ▸ rfl) hx
        · exact h2
      obtain ⟨q, hq1, hq2⟩ := ih (fun u hu => huniq u (List.mem_cons_of_mem _ hu)) hmem2
      refine ⟨q + 1, ?_, by simpa [List.get?] using hq2⟩
      simp [findSenderIdx, hx, hq1]

theorem eq_of_kind_eq_of_nodup (l : List Track) (hnd : (l.map Track.kind).Nodup)
    (u v : Track) (hu : u ∈ l) (hv : v ∈ l) (h : u.kind = v.kind) : u = v := by
  induction l with
  | nil => simp at hu
  | cons x xs ih =>
    have hx : x.kind ∉ xs.map Track.kind := (List.nodup_cons.mp hnd).1
    have hnd2 : (xs.map Track.kind).Nodup := (List.nodup_cons.mp hnd).2
    rcases List.mem_cons.mp hu with hu1 | hu2 <;> rcases List.mem_cons.mp hv with hv1 | hv2
    · rw [hu1, hv1]
    · subst hu1
      exact absurd (List.mem_map.mpr ⟨v, hv2, h.symm⟩) hx
    · subst hv1
      exact absurd (List.mem_map.mpr ⟨u, hu2, h⟩) hx
    · exact ih hnd2 hu2 hv2

theorem updateStreamTracks_fixpoint_vals (S : List Track) (ts : List Track)
    (hnd : (ts.map Track.kind).Nodup) (t : Track) (ht : t ∈ ts) (j : Nat)
    (hfj : findSenderIdx (updateStreamTracks S ts) t.kind = some j) :
    (updateStreamTracks S ts).get? j = some t := by
  have hck := updateStreamTracks_closed S ts
  have hkP : (setsOnly S S ts).map Track.kind = S.map Track.kind :=
    kinds_setsOnly S ts S (fun _ _ h => h)
  have hlenP : (setsOnly S S ts).length = S.length := length_setsOnly S ts S
  cases hhas : hasSenderOfKind S t.kind with
  | true =>
    obtain ⟨i, hi⟩ := findSenderIdx_isSome_of_has S t.kind hhas
    have hPi : findSenderIdx (setsOnly S S ts) t.kind = some i := by
      rw [findSenderIdx_congr_kinds _ S t.kind hkP]
      exact hi
    have hRi : findSenderIdx (updateStreamTracks S ts) t.kind = some i := by
      rw [hck]
      exact findSenderIdx_append_some _ _ _ i hPi
    have hje : j = i := by
      rw [hRi] at hfj
      injection hfj with h2
      exact h2.symm
    rw [hje, hck,
      listGet?_append_of_lt _ _ i
        (by rw [hlenP]; exact findSenderIdx_lt_length S _ i hi)]
    exact setsOnly_get?_self S ts t i S hnd ht hi (le_refl _)
  | false =>
    have hPf : findSenderIdx (setsOnly S S ts) t.kind = none := by
      rw [findSenderIdx_congr_kinds _ S t.kind hkP]
      exact findSenderIdx_eq_none S t.kind hhas
    have htA : t ∈ freshTracks S ts :=
      List.mem_filter.mpr ⟨ht, by simp [hhas]⟩
    have hsub : List.Sublist ((freshTracks S ts).map Track.kind) (ts.map Track.kind) := by
      unfold freshTracks
      exact (List.filter_sublist _).map _
    have hndA : ((freshTracks S ts).map Track.kind).Nodup := hnd.sublist hsub
    have huniq : ∀ u ∈ freshTracks S ts, u.kind = t.kind → u = t :=
      fun u hu he => eq_of_kind_eq_of_nodup _ hndA u t hu htA he
    obtain ⟨q, hq1, hq2⟩ := findSenderIdx_unique_mem _ t huniq htA
    have hR : findSenderIdx (updateStreamTracks S ts) t.kind =
        some (q + (setsOnly S S ts).length) := by
      rw [hck, findSenderIdx_append_none _ _ t.kind hPf, hq1]
      rfl
    have hje : j = q + (setsOnly S S ts).length := by
      rw [hR] at hfj
      injection hfj with h2
      exact h2.symm
    rw [hje, hck]
    have h3 : (setsOnly S S ts ++ freshTracks S ts).get? (q + (setsOnly S S ts).length) =
        (freshTracks S ts).get? q := by
      rw [Nat.add_comm]
      exact listGet?_append_add _ _ q
    rw [h3]
    exact hq2

theorem setsOnly_self_id (R : List Track) (ts : List Track)
    (h : ∀ t ∈ ts, ∀ j, findSenderIdx R t.kind = some j → R.get? j = some t) :
    setsOnly R R ts = R := by
  induction ts with
  | nil => rfl
  | cons t ts ih =>
    cases hf : findSenderIdx R t.kind with
    | none =>
      have h1 : setsOnly R R (t :: ts) = setsOnly R R ts := by simp [setsOnly, hf]
      rw [h1]
      exact ih (fun u hu => h u (List.mem_cons_of_mem _ hu))
    | some j =>
      have hval := h t (List.mem_cons_self _ _) j hf
      have hset : R.set j t = R := listSet_of_get?_eq R j t hval
      have h1 : setsOnly R R (t :: ts) = setsOnly R (R.set j t) ts := by
        simp [setsOnly, hf]
      rw [h1, hset]
      exact ih (fun u hu => h u (List.mem_cons_of_mem _ hu))

theorem freshTracks_updateStreamTracks (S : List Track) (ts : List Track) :
    freshTracks (updateStreamTracks S ts) ts = [] := by
  unfold freshTracks
  rw [List.filter_eq_nil_iff]
  intro t ht
  have hck := updateStreamTracks_closed S ts
  have hkP : (setsOnly S S ts).map Track.kind = S.map Track.kind :=
    kinds_setsOnly S ts S (fun _ _ h => h)
  have hhasR : hasSenderOfKind (updateStreamTracks S ts) t.kind = true := by
    rw [hck, hasSenderOfKind_append]
    cases hhas : hasSenderOfKind S t.kind with
    | true =>
      rw [hasSenderOfKind_congr_kinds _ S t.kind hkP, hhas]
      rfl
    | false =>
      have htA : t ∈ freshTracks S ts := List.mem_filter.mpr ⟨ht, by simp [hhas]⟩
      have : hasSenderOfKind (freshTracks S ts) t.kind = true := by
        simp [hasSenderOfKind]
        exact ⟨t, htA, rfl⟩
      rw [this]
      simp
  simp [hhasR]

theorem updateStreamTracks_idem_of_nodup (S : List Track) (ts : List Track)
    (hnd : (ts.map Track.kind).Nodup) :
    updateStreamTracks (updateStreamTracks S ts) ts = updateStreamTracks S ts := by
  have h1 := updateStreamTracks_closed (updateStreamTracks S ts) ts
  rw [h1, freshTracks_updateStreamTracks S ts, List.append_nil]
  exact setsOnly_self_id (updateStreamTracks S ts) ts
    (fun t ht j hfj => updateStreamTracks_fixpoint_vals S ts hnd t ht j hfj)

theorem length_filter_replaceTrackFirst (s : List Track) (t : Track) :
    ((replaceTrackFirst s t).filter (fun x => decide (x.kind = t.kind))).length =
      (s.filter (fun x => decide (x.kind = t.kind))).length := by
  induction s with
  | nil => rfl
  | cons x xs ih =>
    by_cases hx : x.kind = t.kind
    · simp [replaceTrackFirst, hx, List.filter_cons]
    · simp [replaceTrackFirst, hx, List.filter_cons, ih]

theorem filter_eq_nil_of_not_has (s : List Track) (k : String)
    (h : hasSenderOfKind s k = false) :
    s.filter (fun x => decide (x.kind = k)) = [] := by
  rw [List.filter_eq_nil_iff]
  intro x hx
  simp [hasSenderOfKind] at h
  simp [h x hx]

/-- C7 counterexample: updateStream is not idempotent.  With no audio sender
yet, a stream holding two audio tracks makes the first call append both
(`find` misses twice in the pre-loop snapshot), yielding two audio senders
`[a1, a2]`; the second call with the same stream finds the first audio sender
twice and leaves `[a2, a2]` — a different state. -/
theorem updateStream_idem_claim_false : ¬ claimC7Statement := by
  intro h
  have h2 := h stClientE "P" [⟨"audio", 1⟩, ⟨"audio", 2⟩]
  exact absurd h2 (by decide)

/-- C7 (amended): for a connected peer, a track whose kind matches a sender
in the pre-loop `getSenders()` snapshot is swapped in place into the first
such sender (no new sender), a track with no matching snapshot sender is
appended as a fresh sender, and a single sender of a kind stays a single
sender after sending one track of that kind.  Because `find` consults only
the snapshot, two same-kind tracks of a not-yet-sent kind both get fresh
senders (duplicates), so repeating `updateStream` with the same stream
leaves the state unchanged only when the stream's tracks have pairwise
distinct kinds. -/
theorem updateStream_swap_in_place (st : ClientState) (p : String) (t : Track)
    (ts : List Track) (pc : PeerConn)
    (h : alLookup st.peerConnections p = some pc) :
    (hasSenderOfKind pc.senders t.kind = true →
      sendersOf (updateStream st p [t]).1 p = replaceTrackFirst pc.senders t) ∧
    (hasSenderOfKind pc.senders t.kind = false →
      sendersOf (updateStream st p [t]).1 p = pc.senders ++ [t]) ∧
    ((pc.senders.filter (fun x => decide (x.kind = t.kind))).length = 1 →
      ((sendersOf (updateStream st p [t]).1 p).filter
          (fun x => decide (x.kind = t.kind))).length = 1) ∧
    ((ts.map Track.kind).Nodup →
      (updateStream (updateStream st p ts).1 p ts).1 = (updateStream st p ts).1) ∧
    (∀ t2 : Track, hasSenderOfKind pc.senders t.kind = false → t2.kind = t.kind →
      sendersOf (updateStream st p [t, t2]).1 p = pc.senders ++ [t, t2]) := by
  have hsend : sendersOf (updateStream st p [t]).1 p =
      updateStreamStep pc.senders pc.senders t := by
    simp [updateStream, h, sendersOf, updateStreamTracks]
  refine ⟨?_, ?_, ?_, ?_, ?_⟩
  · intro hk
    obtain ⟨i, hi⟩ := findSenderIdx_isSome_of_has pc.senders t.kind hk
    rw [hsend]
    simp only [updateStreamStep, hi]
    exact set_findSenderIdx_eq_replaceTrackFirst pc.senders t i hi
  · intro hk
    rw [hsend]
    simp only [updateStreamStep, findSenderIdx_eq_none pc.senders t.kind hk]
  · intro hcount
    have hk : hasSenderOfKind pc.senders t.kind = true := by
      by_contra hk
      have := filter_eq_nil_of_not_has pc.senders t.kind (by simpa using hk)
      rw [this] at hcount
      simp at hcount
    obtain ⟨i, hi⟩ := findSenderIdx_isSome_of_has pc.senders t.kind hk
    rw [hsend]
    simp only [updateStreamStep, hi]
    rw [set_findSenderIdx_eq_replaceTrackFirst pc.senders t i hi,
      length_filter_replaceTrackFirst, hcount]
  · intro hnd
    simp only [updateStream, h, alLookup_alSet_self]
    rw [updateStreamTracks_idem_of_nodup pc.senders ts hnd, alSet_alSet]
  · intro t2 hk hk2
    have hf : findSenderIdx pc.senders t.kind = none :=
      findSenderIdx_eq_none pc.senders t.kind hk
    have hsend2 : sendersOf (updateStream st p [t, t2]).1 p =
        updateStreamStep pc.senders (updateStreamStep pc.senders pc.senders t) t2 := by
      simp [updateStream, h, sendersOf, updateStreamTracks]
    rw [hsend2]
    simp only [updateStreamStep, hk2, hf]
    simp

/-- Witness for C7: swapping a fresh audio track into the demo session that
already sends one audio track. -/
theorem updateStream_swap_in_place_witness :
    alLookup stClientB.peerConnections "B" = some pcDemo ∧
      hasSenderOfKind pcDemo.senders (Track.mk "audio" 9).kind = true ∧
      sendersOf (updateStream stClientB "B" [⟨"audio", 9⟩]).1 "B" =
        replaceTrackFirst pcDemo.senders ⟨"audio", 9⟩ :=
  ⟨by decide, by decide,
    (updateStream_swap_in_place stClientB "B" ⟨"audio", 9⟩ [] pcDemo (by decide)).1
      (by decide)⟩

/-!
## Claim C3: the joined-room reply
-/

theorem handleUserLeave_events_no_joined (st : ServerState) (sid : String) :
    (handleUserLeave st sid).2.filterMap joinedRoomPayload = [] := by
  unfold handleUserLeave
  cases hu : alLookup st.users sid with
  | none => rfl
  | some u =>
    obtain ⟨uid, uname, uroom, ua, uv, us⟩ := u
    dsimp only
    cases uroom with
    | none => rfl
    | some rid =>
      dsimp only
      split
      · rfl
      · cases hrm : alLookup st.rooms rid with
        | none => rfl
        | some room =>
          dsimp only
          split <;> simp [joinedRoomPayload]

theorem handleUserLeave_rooms_lookup_ne (st : ServerState) (sid rid : String)
    (h : ∀ v, alLookup st.users sid = some v → v.roomId ≠ some rid) :
    alLookup (handleUserLeave st sid).1.rooms rid = alLookup st.rooms rid := by
  unfold handleUserLeave
  cases hu : alLookup st.users sid with
  | none => rfl
  | some v =>
    obtain ⟨vid, vname, vroom, va, vv, vs⟩ := v
    dsimp only
    cases vroom with
    | none => rfl
    | some old =>
      have hne : old ≠ rid := by
        intro he
        exact h _ hu (by rw [he])
      dsimp only
      split
      · rfl
      · cases hrm : alLookup st.rooms old with
        | none => rfl
        | some room =>
          dsimp only
          split
          · exact alLookup_alErase_ne _ _ _ hne
          · exact alLookup_alSet_ne _ _ _ _ hne

theorem filter_map_id_eq (l : List (String × SUser)) (sid : String)
    (hid : ∀ p ∈ l, p.2.id = p.1) :
    (l.filter (fun kv => kv.2.id ≠ sid)).map (fun kv => kv.2.id) =
      (l.map Prod.fst).filter (fun x => x ≠ sid) := by
  induction l with
  | nil => rfl
  | cons x xs ih =>
    have hx := hid x (List.mem_cons_self _ _)
    have hxs := fun p hp => hid p (List.mem_cons_of_mem _ hp)
    by_cases hxsid : x.1 = sid
    · simp [List.filter_cons, hx, hxsid]
      simpa using ih hxs
    · simp [List.filter_cons, hx, hxsid]
      simpa using ih hxs

theorem mem_keys_alSet {α : Type} (l : List (String × α)) (k : String) (v : α) :
    k ∈ (alSet l k v).map Prod.fst := by
  induction l with
  | nil => simp [alSet]
  | cons hd tl ih =>
    obtain ⟨k', v'⟩ := hd
    by_cases h : k' = k
    · simp [alSet, h]
    · simp [alSet, h]
      right
      simpa using ih

/-- C3: for a registered joiner and a well-formed registry, the `joined-room`
reply is unique in the handler's output and lists exactly the members present
in the target room immediately before the join, excluding the joiner and
without duplicates; the room exists afterwards (created if absent) with the
joiner as a member. -/
theorem joinRoom_reply_members_before (st : ServerState)
    (sid roomId userName roomType : String) (u : SUser)
    (hu : alLookup st.users sid = some u) (hwf : wfRooms st) :
    ((serverStep st (.joinRoom sid roomId userName roomType)).2.filterMap
        joinedRoomPayload =
      [(sid, roomId, (roomMembers st roomId).filter (fun x => x ≠ sid))]) ∧
    ((roomMembers st roomId).filter (fun x => x ≠ sid)).Nodup ∧
    (∃ room',
      alLookup (serverStep st (.joinRoom sid roomId userName roomType)).1.rooms
          roomId = some room' ∧
      sid ∈ room'.users.map Prod.fst) := by
  have hstep : serverStep st (.joinRoom sid roomId userName roomType) =
      onJoinRoom st sid roomId userName roomType := rfl
  rw [hstep]
  have hnodup : ((roomMembers st roomId).filter (fun x => x ≠ sid)).Nodup := by
    unfold roomMembers
    cases hcr : alLookup st.rooms roomId with
    | none => simp
    | some r0 => exact ((hwf (roomId, r0) (alLookup_mem _ _ _ hcr)).2).filter _
  by_cases hleave : (match u.roomId with
      | some old => decide (old ≠ "" ∧ old ≠ roomId)
      | none => false) = true
  · have hr : alLookup (handleUserLeave st sid).1.rooms roomId =
        alLookup st.rooms roomId := by
      apply handleUserLeave_rooms_lookup_ne
      intro v hv
      rw [hu] at hv
      have hv2 : v = u := by
        injection hv with h2
        exact h2.symm
      subst hv2
      intro he
      rw [he] at hleave
      simp at hleave
    simp only [onJoinRoom, hu]
    rw [if_pos hleave]
    rw [hr]
    cases hcr : alLookup st.rooms roomId with
    | none =>
      refine ⟨?_, hnodup, ?_⟩
      · simp [List.filterMap_append, handleUserLeave_events_no_joined,
          joinedRoomPayload, roomMembers, hcr, hr]
      · exact ⟨_, alLookup_alSet_self _ _ _, mem_keys_alSet _ _ _⟩
    | some r0 =>
      refine ⟨?_, hnodup, ?_⟩
      · simp [List.filterMap_append, handleUserLeave_events_no_joined,
          joinedRoomPayload, roomMembers, hcr, hr]
        simpa using
          filter_map_id_eq r0.users sid (hwf (roomId, r0) (alLookup_mem _ _ _ hcr)).1
      · exact ⟨_, alLookup_alSet_self _ _ _, mem_keys_alSet _ _ _⟩
  · simp only [onJoinRoom, hu]
    rw [if_neg hleave]
    cases hcr : alLookup st.rooms roomId with
    | none =>
      refine ⟨?_, hnodup, ?_⟩
      · simp [List.filterMap_append, joinedRoomPayload, roomMembers, hcr]
      · exact ⟨_, alLookup_alSet_self _ _ _, mem_keys_alSet _ _ _⟩
    | some r0 =>
      refine ⟨?_, hnodup, ?_⟩
      · simp [List.filterMap_append, joinedRoomPayload, roomMembers, hcr]
        simpa using
          filter_map_id_eq r0.users sid (hwf (roomId, r0) (alLookup_mem _ _ _ hcr)).1
      · exact ⟨_, alLookup_alSet_self _ _ _, mem_keys_alSet _ _ _⟩

/-- Witness for C3: `"B"` re-joining room `r2` of the two-room state gets an
empty member list (the only member was `"B"` itself). -/
theorem joinRoom_reply_members_before_witness :
    alLookup stCross.users "B" = some uB ∧ wfRooms stCross ∧
      (serverStep stCross (.joinRoom "B" "r2" "b" "video")).2.filterMap
          joinedRoomPayload =
        [("B", "r2", (roomMembers stCross "r2").filter (fun x => x ≠ "B"))] :=
  ⟨by decide, by unfold wfRooms; decide,
    (joinRoom_reply_members_before stCross "B" "r2" "b" "video" uB (by decide)
      (by unfold wfRooms; decide)).1⟩

end VideoCallApp
